import Mathlib

/-!
# BookFinder — verification of the Search Session Controller

A shallow embedding of the state-bearing logic of `src/App.jsx`
(the `BookFinder` component): the debounced search commit, the
cancellable fetch effect with latest-wins sequencing, client-side
sorting, favorites toggling, recent-search recording, and cover-URL
derivation.  All presentation markup is out of scope, mirroring the
specification.
-/

namespace BookFinder

/-- Sort modes offered by the `<select>` bound to `sortBy`:
`"relevance"`, `"year-asc"`, `"year-desc"`. -/
inductive SortMode where
  | relevance
  | yearAsc
  | yearDesc
deriving DecidableEq, Repr

/-- A search-result document (`doc`) as consumed by the component.
Optional fields model JS fields that may be `undefined`; `cover_i`
is an integer identifier (JS number), `isbn` an optional array of
strings, matching the fields read by `App.jsx`. -/
structure Book where
  key : String
  title : String
  author_name : Option (List String)
  cover_i : Option Int
  first_publish_year : Option Nat
  isbn : Option (List String)
  cover_edition_key : Option String
  edition_count : Option Nat
  subject : Option (List String)
deriving DecidableEq, Repr

/-- The reduced projection stored in `favorites`
(see `toggleFavorite` in `App.jsx`: `key`, `title`, `author_name`,
`cover_i`, `first_publish_year`). -/
structure Fav where
  key : String
  title : String
  author_name : Option (List String)
  cover_i : Option Int
  first_publish_year : Option Nat
deriving DecidableEq, Repr

/-- The projection `{ key, title, author_name, cover_i, first_publish_year }`
built when a book is added to favorites. -/
def favOf (b : Book) : Fav :=
  { key := b.key, title := b.title, author_name := b.author_name
    cover_i := b.cover_i, first_publish_year := b.first_publish_year }

/-- `toggleFavorite` (`App.jsx` lines 142–165): if an entry with the
book's `key` exists it is removed (`prev.filter(b => b.key !== book.key)`);
otherwise a projection of the book is prepended. -/
def toggleFavorite (book : Book) (prev : List Fav) : List Fav :=
  match prev.find? (fun b => b.key == book.key) with
  | some _ => prev.filter (fun b => b.key != book.key)
  | none => favOf book :: prev

/-- JS `String.prototype.trim()`: strip whitespace from both ends of
the string (modelled structurally over the character list). -/
def jsTrim (s : String) : String :=
  String.mk (((s.data.dropWhile Char.isWhitespace).reverse.dropWhile
    Char.isWhitespace).reverse)

/-- JS truthiness of `doc.cover_i`: present and a nonzero number. -/
def truthyInt : Option Int → Bool
  | some n => n != 0
  | none => false

/-- JS truthiness of `doc.cover_edition_key`: present and a nonempty string. -/
def truthyStr : Option String → Bool
  | some s => s != ""
  | none => false

/-- JS truthiness of `doc.isbn && doc.isbn.length`: the array is present
and its length is nonzero. -/
def truthyIsbn : Option (List String) → Bool
  | some l => l.length != 0
  | none => false

/-- `coverFor` (`App.jsx` lines 193–204): derive a cover URL from, in
order, `cover_i`, the first ISBN, the cover edition key; `null` when
none of the guards is truthy. -/
def coverFor (doc : Book) (size : String) : Option String :=
  if truthyInt doc.cover_i then
    some ("https://covers.openlibrary.org/b/id/" ++
      toString (doc.cover_i.getD 0) ++ "-" ++ size ++ ".jpg")
  else if truthyIsbn doc.isbn then
    some ("https://covers.openlibrary.org/b/isbn/" ++
      (doc.isbn.getD []).headD "" ++ "-" ++ size ++ ".jpg")
  else if truthyStr doc.cover_edition_key then
    some ("https://covers.openlibrary.org/b/olid/" ++
      doc.cover_edition_key.getD "" ++ "-" ++ size ++ ".jpg")
  else
    none

/-- The sort key `first_publish_year || 0`: a missing year counts as 0. -/
def yearKey (d : Book) : Nat := d.first_publish_year.getD 0

/-- The client-side sort applied to `data.docs` (`App.jsx` lines 112–117):
`relevance` leaves the list as received; `year-asc`/`year-desc` sort a
copy (`[...docs].sort(...)`) by `first_publish_year || 0`.  The ES2019
`Array.prototype.sort` is required to be stable, and a stable sort with
respect to a total preorder is extensionally unique, so it is modelled
by the stable `List.insertionSort` over the comparator's preorder. -/
def sortDocs (m : SortMode) (docs : List Book) : List Book :=
  match m with
  | .relevance => docs
  | .yearAsc => List.insertionSort (fun a b => yearKey a ≤ yearKey b) docs
  | .yearDesc => List.insertionSort (fun a b => yearKey b ≤ yearKey a) docs

/-- The recent-search update (`App.jsx` line 123):
`[searchTerm, ...prev.filter(x => x !== searchTerm)].slice(0, 8)`. -/
def recordTerm (t : String) (prev : List String) : List String :=
  (t :: prev.filter (fun x => x != t)).take 8

/-- The error message stored on a non-abort failure
(`err.message || "Failed to fetch books"`): an empty message falls back
to the fixed string. -/
def errMessage (msg : String) : String :=
  if msg = "" then "Failed to fetch books" else msg

/-! ## The fetch effect as a state machine

`App.jsx` lines 83–139: the effect keyed on
`[searchTerm, page, sortBy, searchTrigger]`.  Each run of the effect
first executes the previous run's cleanup — `controller.abort()` on the
controller of the most recent invocation — and then either clears the
result state (empty term) or issues a new invocation with a fresh
`AbortController`, setting `loading = true` and `error = null`.

An in-flight invocation later *settles*: if its controller was aborted,
`fetch`/`res.json()` rejects with an `AbortError`, the `catch` skips
`setError`, and only the `finally` clause runs (`setLoading(false)`);
otherwise the invocation is necessarily the most recently issued one
(the JS event loop runs each response continuation to completion before
any later effect run, and any later effect run aborts the controller
first), and it applies its response: `numFound`, sorted `docs`,
`results`, and the recent-search list (persisted via
`localStorage.setItem`), or `setError` on a non-abort failure. -/

/-- How a settling remote invocation ends: a parsed 2xx response body
(`numFound` and `docs` each possibly absent), or a non-abort failure
(HTTP error / network error / parse error) with message `msg`. -/
inductive FetchOutcome where
  | ok (numFound : Option Nat) (docs : Option (List Book))
  | err (msg : String)
deriving DecidableEq, Repr

/-- One remote invocation: the parameters captured by its closure, the
state of its `AbortController`, and whether its promise chain has not
yet run to completion. -/
structure InvState where
  term : String
  page : Nat
  sortBy : SortMode
  aborted : Bool
  pending : Bool
deriving DecidableEq, Repr

/-- The component state read and written by the fetch effect, plus the
mirror of the `bf_recent` storage entry and the list of invocations
issued so far (indexed by issue order). -/
structure Machine where
  results : List Book
  numFound : Nat
  error : Option String
  loading : Bool
  recent : List String
  storedRecent : List String
  invs : List InvState
deriving DecidableEq, Repr

/-- The state at mount: empty results, `recent` loaded from storage. -/
def Machine.init (r0 : List String) : Machine :=
  { results := [], numFound := 0, error := none, loading := false
    recent := r0, storedRecent := r0, invs := [] }

/-- Observable events of the fetch effect: `run` is one execution of the
effect after its dependency tuple changed (preceded by the previous
run's cleanup), `settle` is the completion of invocation `g`'s promise
chain with outcome `out`. -/
inductive Ev where
  | run (term : String) (page : Nat) (sortBy : SortMode)
  | settle (g : Nat) (out : FetchOutcome)
deriving DecidableEq, Repr

/-- The previous effect run's cleanup: abort the controller of the most
recently issued invocation (controllers of older invocations were
aborted by older cleanups). -/
def abortLast : List InvState → List InvState
  | [] => []
  | [i] => [{ i with aborted := true }]
  | i :: j :: rest => i :: abortLast (j :: rest)

/-- One event of the fetch effect.  `run`: cleanup aborts the latest
controller; an empty term clears `results`/`numFound`/`error` and
issues nothing; a nonempty term sets `loading = true`, `error = null`
and issues a new invocation.  `settle g out`: if invocation `g` is
still pending, an aborted invocation only runs its `finally`
(`setLoading(false)`); a live one applies `out` — on success
`numFound || 0`, the sorted copy of `docs || []`, and the recorded and
persisted recent-search list; on failure `setError`. -/
def stepEv (m : Machine) : Ev → Machine
  | .run t p s =>
    let invs := abortLast m.invs
    if t = "" then
      { m with invs := invs, results := [], numFound := 0, error := none }
    else
      { m with
          invs := invs ++
            [{ term := t, page := p, sortBy := s, aborted := false, pending := true }]
          loading := true, error := none }
  | .settle g out =>
    match m.invs[g]? with
    | none => m
    | some inv =>
      if inv.pending then
        let invs := m.invs.set g { inv with pending := false }
        if inv.aborted then
          { m with invs := invs, loading := false }
        else
          match out with
          | .ok n docs =>
            let sorted := sortDocs inv.sortBy (docs.getD [])
            let rec2 := recordTerm inv.term m.recent
            { m with invs := invs, numFound := n.getD 0, results := sorted
                     recent := rec2, storedRecent := rec2, loading := false }
          | .err msg =>
            { m with invs := invs, error := some (errMessage msg), loading := false }
      else m

/-- The machine after a sequence of events, starting from the mount
state with `r0` the persisted recent-search list. -/
def runTrace (r0 : List String) (es : List Ev) : Machine :=
  es.foldl stepEv (Machine.init r0)

/-! ## The debounce effect as a timed state machine

`App.jsx` lines 58–80: the effect keyed on `[query]`.  Every change
clears the pending timeout (both the cleanup and the body do so); a
nonempty trimmed value schedules a commit 450 ms later whose callback
— capturing the current `query` — sets `page = 1`, `searchTerm` to the
trimmed value and bumps `searchTrigger`; an empty trimmed
value clears `results`/`numFound`/`error` and schedules nothing. -/

/-- The debounce window in milliseconds (`setTimeout(..., 450)`). -/
def DEBOUNCE_MS : Nat := 450

/-- Component state touched by the input/debounce path, plus the
scheduled timeout (`debounceRef`): deadline and the trimmed value its
callback will commit.  `now` is the clock. -/
structure DSt where
  query : String
  page : Nat
  searchTerm : String
  searchTrigger : Nat
  results : List Book
  numFound : Nat
  error : Option String
  timer : Option (Nat × String)
  now : Nat
deriving DecidableEq, Repr

/-- Events on the debounce path: a change of the input value, or the
passage of `d` ms of quiet time (during which a due timeout fires). -/
inductive DEv where
  | input (s : String)
  | elapse (d : Nat)
deriving DecidableEq, Repr

/-- One event of the debounce effect.  `input s`: the pending timeout
(if any) is cleared; a nonempty trim schedules the commit of `s.trim`
at `now + 450`; an empty trim clears the result state.  `elapse d`:
time advances and a due timeout fires its commit. -/
def dstep (st : DSt) : DEv → DSt
  | .input s =>
    if jsTrim s = "" then
      { st with query := s, timer := none
                results := [], numFound := 0, error := none }
    else
      { st with query := s, timer := some (st.now + DEBOUNCE_MS, jsTrim s) }
  | .elapse d =>
    let now := st.now + d
    match st.timer with
    | some (deadline, v) =>
      if deadline ≤ now then
        { st with now := now, timer := none, page := 1
                  searchTerm := v, searchTrigger := st.searchTrigger + 1 }
      else
        { st with now := now }
    | none => { st with now := now }

/-- A sequence of debounce events applied in order. -/
def dsteps (st : DSt) (evs : List DEv) : DSt := evs.foldl dstep st

/-- The event list of a typing burst: each pair `(s, d)` is an input
change followed by `d` ms of quiet time. -/
def typeEvents (ps : List (String × Nat)) : List DEv :=
  ps.foldr (fun p acc => .input p.1 :: .elapse p.2 :: acc) []

/-- Invariant of the fetch machine: every invocation other than the
most recently issued one has had its controller aborted. -/
def earlierAborted (m : Machine) : Prop :=
  ∀ i, i + 1 < m.invs.length → ∀ inv, m.invs[i]? = some inv → inv.aborted = true

/-! ## Concrete sample data (used by witnesses and counterexamples) -/

/-- A sample book with no cover sources and a 1965 first publish year. -/
def demoBookA : Book :=
  { key := "a", title := "Dune", author_name := some ["Frank Herbert"]
    cover_i := none, first_publish_year := some 1965, isbn := none
    cover_edition_key := none, edition_count := some 3, subject := none }

/-- A second sample book, distinct key, year 2000. -/
def demoBookB : Book :=
  { key := "b", title := "House Atreides", author_name := none
    cover_i := none, first_publish_year := some 2000, isbn := none
    cover_edition_key := none, edition_count := none, subject := none }

/-- A sample book with a cover image id. -/
def docCoverId : Book :=
  { key := "c1", title := "C1", author_name := none, cover_i := some 5
    first_publish_year := none, isbn := some ["111"]
    cover_edition_key := some "OL9M", edition_count := none, subject := none }

/-- A sample book whose only cover source is its ISBN list. -/
def docIsbn : Book :=
  { key := "c2", title := "C2", author_name := none, cover_i := none
    first_publish_year := none, isbn := some ["9780441013593"]
    cover_edition_key := some "OL9M", edition_count := none, subject := none }

/-- A sample book whose only cover source is its cover edition key. -/
def docOlid : Book :=
  { key := "c3", title := "C3", author_name := none, cover_i := none
    first_publish_year := none, isbn := none
    cover_edition_key := some "OL1M", edition_count := none, subject := none }

/-- A sample book with no cover source at all. -/
def docBare : Book :=
  { key := "c4", title := "C4", author_name := none, cover_i := none
    first_publish_year := none, isbn := none
    cover_edition_key := none, edition_count := none, subject := none }

/-- A sample book with a present-but-empty ISBN list and an edition key. -/
def docEmptyIsbn : Book :=
  { key := "c5", title := "C5", author_name := none, cover_i := none
    first_publish_year := none, isbn := some []
    cover_edition_key := some "OL2M", edition_count := none, subject := none }

/-- A sample book with a present-but-empty ISBN list and no edition key. -/
def docEmptyIsbnBare : Book :=
  { key := "c6", title := "C6", author_name := none, cover_i := none
    first_publish_year := none, isbn := some []
    cover_edition_key := none, edition_count := none, subject := none }

/-- A sample debounce-path state with visible results, a pending
timeout and a previously committed search. -/
def demoDSt : DSt :=
  { query := "dune", page := 3, searchTerm := "dune", searchTrigger := 5
    results := [demoBookA], numFound := 42, error := some "old error"
    timer := some (400, "dun"), now := 100 }

/-- A sample fetch-effect trace: two runs in close succession, so the
first invocation is superseded while still in flight. -/
def demoTrace : List Ev :=
  [.run "alpha" 1 .relevance, .run "beta" 1 .relevance]

/-! ## Helper lemmas -/

/-- Filtering commutes with `orderedInsert` when the inserted element
satisfies the predicate and every element the comparison would place
before it does not. -/
theorem filter_orderedInsert_pos (cmp : Book → Book → Prop) [DecidableRel cmp]
    (p : Book → Bool) (x : Book) (hx : p x = true)
    (hpre : ∀ y, ¬ cmp x y → p y = false) :
    ∀ l : List Book, (l.orderedInsert cmp x).filter p = x :: l.filter p := by
  intro l
  induction l with
  | nil => simp [hx]
  | cons b bs ih =>
    by_cases hr : cmp x b
    · simp [List.orderedInsert, if_pos hr, hx]
    · simp [List.orderedInsert, if_neg hr, List.filter_cons, hpre b hr, ih]

/-- Filtering commutes with `orderedInsert` when the inserted element
does not satisfy the predicate. -/
theorem filter_orderedInsert_neg (cmp : Book → Book → Prop) [DecidableRel cmp]
    (p : Book → Bool) (x : Book) (hx : p x = false) :
    ∀ l : List Book, (l.orderedInsert cmp x).filter p = l.filter p := by
  intro l
  induction l with
  | nil => simp [hx]
  | cons b bs ih =>
    by_cases hr : cmp x b
    · simp [List.orderedInsert, if_pos hr, hx]
    · simp [List.orderedInsert, if_neg hr, List.filter_cons, ih]

/-- Stability of `insertionSort` for a year-based comparator: the
subsequence of elements with a fixed year key is untouched by the
sort, provided equal keys always compare `true` (which makes any
element placed before `x` have a different key). -/
theorem filter_insertionSort_yearKey (cmp : Book → Book → Prop) [DecidableRel cmp]
    (hcmp : ∀ a b : Book, yearKey a = yearKey b → cmp a b) (y : Nat) :
    ∀ l : List Book,
      (List.insertionSort cmp l).filter (fun d => yearKey d == y) =
        l.filter (fun d => yearKey d == y) := by
  intro l
  induction l with
  | nil => rfl
  | cons x xs ih =>
    simp only [List.insertionSort]
    by_cases hx : (yearKey x == y) = true
    · have hpre : ∀ b, ¬ cmp x b → (yearKey b == y) = false := by
        intro b hb
        cases h : (yearKey b == y) with
        | false => rfl
        | true =>
          have h1 : yearKey x = y := by simpa using hx
          have h2 : yearKey b = y := by simpa using h
          exact absurd (hcmp x b (h1.trans h2.symm)) hb
      rw [filter_orderedInsert_pos cmp _ x hx hpre, ih]
      simp [List.filter_cons, hx]
    · have hx' : (yearKey x == y) = false := by
        cases h : (yearKey x == y) with
        | false => rfl
        | true => exact absurd h hx
      rw [filter_orderedInsert_neg cmp _ x hx', ih]
      simp [List.filter_cons, hx']

/-! ## Claims -/

/-- **C6.** For every returned item list: `Relevance` leaves the order
untouched; `YearAscending` (resp. `YearDescending`) produces a stable
sort of the items by `firstPublishYear` ascending (resp. descending)
with a missing year treated as 0 — the output is ordered by the year
key, is a permutation of the input (nothing added, dropped or merged),
and for every year value the subsequence of items with that key is
exactly the input's subsequence, so ties keep their relative order.
The sort operates on a copy; the source list, being a value of the
pure function `sortDocs`, is not mutated. -/
theorem sort_mode_spec (docs : List Book) (y : Nat) :
    sortDocs .relevance docs = docs
  ∧ List.Sorted (fun a b => yearKey a ≤ yearKey b) (sortDocs .yearAsc docs)
  ∧ List.Sorted (fun a b => yearKey b ≤ yearKey a) (sortDocs .yearDesc docs)
  ∧ List.Perm (sortDocs .yearAsc docs) docs
  ∧ List.Perm (sortDocs .yearDesc docs) docs
  ∧ (sortDocs .yearAsc docs).filter (fun d => yearKey d == y) =
      docs.filter (fun d => yearKey d == y)
  ∧ (sortDocs .yearDesc docs).filter (fun d => yearKey d == y) =
      docs.filter (fun d => yearKey d == y) := by
  haveI : IsTotal Book (fun a b => yearKey a ≤ yearKey b) :=
    ⟨fun a b => Nat.le_total _ _⟩
  haveI : IsTrans Book (fun a b => yearKey a ≤ yearKey b) :=
    ⟨fun _ _ _ => Nat.le_trans⟩
  haveI : IsTotal Book (fun a b => yearKey b ≤ yearKey a) :=
    ⟨fun a b => Nat.le_total _ _⟩
  haveI : IsTrans Book (fun a b => yearKey b ≤ yearKey a) :=
    ⟨fun _ _ _ h h2 => Nat.le_trans h2 h⟩
  refine ⟨rfl, ?_, ?_, ?_, ?_, ?_, ?_⟩
  · exact List.sorted_insertionSort _ docs
  · exact List.sorted_insertionSort _ docs
  · exact List.perm_insertionSort _ docs
  · exact List.perm_insertionSort _ docs
  · exact filter_insertionSort_yearKey _ (fun a b h => Nat.le_of_eq h) y docs
  · exact filter_insertionSort_yearKey _ (fun a b h => Nat.le_of_eq h.symm) y docs

/-- **C3, counterexample.** Toggling a book that is already a favorite
at a position other than the front, twice, does not restore the
original list: starting from `[demoBookA, demoBookB]` (as favorite
entries), double-toggling `demoBookB` yields
`[favOf demoBookB, favOf demoBookA]` — same content, different order. -/
theorem toggle_twice_reorders_existing :
    toggleFavorite demoBookB
        (toggleFavorite demoBookB [favOf demoBookA, favOf demoBookB]) ≠
      [favOf demoBookA, favOf demoBookB] := by decide

/-- **C3, amended.** Double-toggle restores the favorites list exactly
when the book was not already a favorite; when an entry with the
book's id exists, the double application instead moves a fresh
projection of the book to the front of the list with all entries
carrying its id removed. -/
theorem toggle_twice_favorites (book : Book) (prev : List Fav) :
    ((∀ f ∈ prev, f.key ≠ book.key) →
      toggleFavorite book (toggleFavorite book prev) = prev)
  ∧ (∀ f, prev.find? (fun b => b.key == book.key) = some f →
      toggleFavorite book (toggleFavorite book prev) =
        favOf book :: prev.filter (fun b => b.key != book.key)) := by
  constructor
  · intro h
    have hfind : prev.find? (fun b => b.key == book.key) = none :=
      List.find?_eq_none.mpr (fun f hf => by simp [h f hf])
    have hself : prev.filter (fun b => b.key != book.key) = prev :=
      List.filter_eq_self.mpr (fun f hf => by simp [h f hf])
    have h1 : toggleFavorite book prev = favOf book :: prev := by
      simp [toggleFavorite, hfind]
    rw [h1]
    have h2 : (favOf book :: prev).find? (fun b => b.key == book.key) =
        some (favOf book) := by
      simp [List.find?_cons, favOf]
    simp [toggleFavorite, h2, List.filter_cons, favOf, hself]
  · intro f hf
    have h1 : toggleFavorite book prev =
        prev.filter (fun b => b.key != book.key) := by
      simp [toggleFavorite, hf]
    have h2 : (prev.filter (fun b => b.key != book.key)).find?
        (fun b => b.key == book.key) = none := by
      apply List.find?_eq_none.mpr
      intro g hg
      have := (List.mem_filter.mp hg).2
      simp_all
    rw [h1]
    simp [toggleFavorite, h2]

/-- **C3, witness (amended).** Double-toggling a non-favorite book on a
concrete one-element list restores it. -/
theorem toggle_twice_favorites_witness :
    (∀ f ∈ [favOf demoBookA], f.key ≠ demoBookB.key) ∧
      toggleFavorite demoBookB (toggleFavorite demoBookB [favOf demoBookA]) =
        [favOf demoBookA] :=
  ⟨by decide, (toggle_twice_favorites demoBookB [favOf demoBookA]).1 (by decide)⟩

/-- **C9.** `coverFor` is a pure projection whose result follows the
fixed precedence order: a (truthy) cover image id wins; otherwise a
present, nonempty ISBN list contributes its first element; otherwise a
(truthy) cover edition key; when all three sources are absent the
result is `none`. -/
theorem cover_url_precedence (doc : Book) (size : String) :
    (∀ n : Int, doc.cover_i = some n → n ≠ 0 →
      coverFor doc size = some ("https://covers.openlibrary.org/b/id/" ++
        toString n ++ "-" ++ size ++ ".jpg"))
  ∧ (∀ i rest, truthyInt doc.cover_i = false → doc.isbn = some (i :: rest) →
      coverFor doc size = some ("https://covers.openlibrary.org/b/isbn/" ++
        i ++ "-" ++ size ++ ".jpg"))
  ∧ (∀ k, truthyInt doc.cover_i = false → truthyIsbn doc.isbn = false →
      doc.cover_edition_key = some k → k ≠ "" →
      coverFor doc size = some ("https://covers.openlibrary.org/b/olid/" ++
        k ++ "-" ++ size ++ ".jpg"))
  ∧ (doc.cover_i = none → doc.isbn = none → doc.cover_edition_key = none →
      coverFor doc size = none) := by
  refine ⟨?_, ?_, ?_, ?_⟩
  · intro n hn hn0
    simp [coverFor, truthyInt, hn, hn0]
  · intro i rest h1 h2
    simp [coverFor, h1, truthyIsbn, h2]
  · intro k h1 h2 h3 h4
    simp [coverFor, h1, h2, truthyStr, h3, h4]
  · intro h1 h2 h3
    simp [coverFor, truthyInt, truthyIsbn, truthyStr, h1, h2, h3]

/-- **C9, witness.** Each precedence case evaluated on a concrete book. -/
theorem cover_url_precedence_witness :
    (docCoverId.cover_i = some 5 ∧ (5 : Int) ≠ 0 ∧
      coverFor docCoverId "M" = some ("https://covers.openlibrary.org/b/id/" ++
        toString (5 : Int) ++ "-" ++ "M" ++ ".jpg"))
  ∧ coverFor docIsbn "M" = some ("https://covers.openlibrary.org/b/isbn/" ++
      "9780441013593" ++ "-" ++ "M" ++ ".jpg")
  ∧ coverFor docOlid "M" = some ("https://covers.openlibrary.org/b/olid/" ++
      "OL1M" ++ "-" ++ "M" ++ ".jpg")
  ∧ coverFor docBare "M" = none :=
  ⟨⟨rfl, by decide, (cover_url_precedence docCoverId "M").1 5 rfl (by decide)⟩,
   (cover_url_precedence docIsbn "M").2.1 "9780441013593" [] (by decide) rfl,
   (cover_url_precedence docOlid "M").2.2.1 "OL1M" (by decide) (by decide) rfl
     (by decide),
   (cover_url_precedence docBare "M").2.2.2 rfl rfl rfl⟩

/-- **C10.** When the cover image id is absent and the ISBN field is a
present but empty list, `coverFor` never builds an ISBN URL: it falls
through to the cover edition key when that is truthy, and yields
`none` when the key is absent (or the empty string). -/
theorem cover_url_ignores_empty_isbn (doc : Book) (size : String)
    (h1 : doc.cover_i = none) (h2 : doc.isbn = some []) :
    (∀ k, doc.cover_edition_key = some k → k ≠ "" →
      coverFor doc size = some ("https://covers.openlibrary.org/b/olid/" ++
        k ++ "-" ++ size ++ ".jpg"))
  ∧ (doc.cover_edition_key = none → coverFor doc size = none)
  ∧ (doc.cover_edition_key = some "" → coverFor doc size = none) := by
  refine ⟨?_, ?_, ?_⟩
  · intro k h3 h4
    simp [coverFor, truthyInt, truthyIsbn, truthyStr, h1, h2, h3, h4]
  · intro h3
    simp [coverFor, truthyInt, truthyIsbn, truthyStr, h1, h2, h3]
  · intro h3
    simp [coverFor, truthyInt, truthyIsbn, truthyStr, h1, h2, h3]

/-- **C10, witness.** Concrete books with `isbn = some []`: one falls
through to its edition key, one yields `none`. -/
theorem cover_url_ignores_empty_isbn_witness :
    docEmptyIsbn.cover_i = none ∧ docEmptyIsbn.isbn = some [] ∧
      coverFor docEmptyIsbn "M" =
        some ("https://covers.openlibrary.org/b/olid/" ++ "OL2M" ++ "-" ++
          "M" ++ ".jpg") ∧
      coverFor docEmptyIsbnBare "M" = none :=
  ⟨rfl, rfl,
   (cover_url_ignores_empty_isbn docEmptyIsbn "M" rfl rfl).1 "OL2M" rfl
     (by decide),
   (cover_url_ignores_empty_isbn docEmptyIsbnBare "M" rfl rfl).2.1 rfl⟩

/-- Every step of the fetch machine keeps the persisted `bf_recent`
entry identical to the in-memory recent list (the updater writes
`localStorage` with exactly the list it returns). -/
theorem stepEv_stored_eq (m : Machine) (e : Ev) (h : m.storedRecent = m.recent) :
    (stepEv m e).storedRecent = (stepEv m e).recent := by
  cases e with
  | run t p s =>
    by_cases ht : t = "" <;> simp [stepEv, ht, h]
  | settle g out =>
    cases hg : m.invs[g]? with
    | none => simp [stepEv, hg, h]
    | some inv =>
      by_cases hp : inv.pending
      · by_cases ha : inv.aborted
        · simp [stepEv, hg, hp, ha, h]
        · cases out <;> simp [stepEv, hg, hp, ha, h]
      · simp [stepEv, hg, hp, h]

/-- **C7.** `record(term)` prepends the term, removes any other
occurrence (case-sensitive exact match, so the term occurs exactly
once), truncates to capacity 8, and persists the result (along every
trace the stored list equals the in-memory list); recording the same
term twice in a row changes nothing further. -/
theorem record_term_spec (t : String) (prev : List String)
    (r0 : List String) (es : List Ev) :
    (recordTerm t prev).head? = some t
  ∧ (recordTerm t prev).count t = 1
  ∧ (recordTerm t prev).length ≤ 8
  ∧ recordTerm t prev = t :: (prev.filter (fun x => x != t)).take 7
  ∧ recordTerm t (recordTerm t prev) = recordTerm t prev
  ∧ (runTrace r0 es).storedRecent = (runTrace r0 es).recent := by
  have hA : recordTerm t prev = t :: (prev.filter (fun x => x != t)).take 7 := rfl
  have hmem : ∀ a ∈ (prev.filter (fun x => x != t)).take 7, (a != t) = true :=
    fun a ha => (List.mem_filter.mp (List.take_subset _ _ ha)).2
  have hnot : t ∉ (prev.filter (fun x => x != t)).take 7 := by
    intro hm
    have h2 := hmem t hm
    simp at h2
  refine ⟨?_, ?_, ?_, hA, ?_, ?_⟩
  · rw [hA]; rfl
  · rw [hA]
    simp [List.count_cons_self, List.count_eq_zero_of_not_mem hnot]
  · rw [recordTerm, List.length_take]
    omega
  · have hfix : (t :: (prev.filter (fun x => x != t)).take 7).filter
        (fun x => x != t) = (prev.filter (fun x => x != t)).take 7 := by
      rw [List.filter_cons]
      simp only [bne_self_eq_false, Bool.false_eq_true, if_false]
      exact List.filter_eq_self.mpr hmem
    calc recordTerm t (recordTerm t prev)
        = (t :: ((t :: (prev.filter (fun x => x != t)).take 7).filter
            (fun x => x != t))).take 8 := by rw [hA]; rfl
      _ = (t :: (prev.filter (fun x => x != t)).take 7).take 8 := by rw [hfix]
      _ = t :: ((prev.filter (fun x => x != t)).take 7).take 7 := rfl
      _ = t :: (prev.filter (fun x => x != t)).take 7 := by
            rw [List.take_take]
            simp
      _ = recordTerm t prev := hA.symm
  · have hgen : ∀ (es2 : List Ev) (m : Machine), m.storedRecent = m.recent →
        (es2.foldl stepEv m).storedRecent = (es2.foldl stepEv m).recent := by
      intro es2
      induction es2 with
      | nil => intro m h; exact h
      | cons e rest ih => intro m h; exact ih _ (stepEv_stored_eq m e h)
    exact hgen es (Machine.init r0) rfl

/-- **C8.** When the raw query's trimmed value is empty, the input step
cancels any pending debounce commit and clears `results`, `totalCount`
and `lastError`, while leaving the fetch effect's dependency tuple
(`searchTerm`, `page`, `searchTrigger`) unchanged — so no remote call
is issued. -/
theorem empty_query_clears (st : DSt) (s : String) (h : jsTrim s = "") :
    (dstep st (.input s)).results = []
  ∧ (dstep st (.input s)).numFound = 0
  ∧ (dstep st (.input s)).error = none
  ∧ (dstep st (.input s)).timer = none
  ∧ (dstep st (.input s)).searchTerm = st.searchTerm
  ∧ (dstep st (.input s)).searchTrigger = st.searchTrigger
  ∧ (dstep st (.input s)).page = st.page := by
  refine ⟨?_, ?_, ?_, ?_, ?_, ?_, ?_⟩ <;> simp [dstep, h]

/-- **C8, witness.** Clearing the input to whitespace after a prior
committed search (`demoDSt` has results, an error and a pending
timeout) resets the view state without touching the committed term. -/
theorem empty_query_clears_witness :
    jsTrim "   " = ""
  ∧ ((dstep demoDSt (.input "   ")).results = []
    ∧ (dstep demoDSt (.input "   ")).numFound = 0
    ∧ (dstep demoDSt (.input "   ")).error = none
    ∧ (dstep demoDSt (.input "   ")).timer = none
    ∧ (dstep demoDSt (.input "   ")).searchTerm = demoDSt.searchTerm
    ∧ (dstep demoDSt (.input "   ")).searchTrigger = demoDSt.searchTrigger
    ∧ (dstep demoDSt (.input "   ")).page = demoDSt.page) :=
  ⟨by decide, empty_query_clears demoDSt "   " (by decide)⟩

/-- **C5.** A pending, non-aborted invocation that settles with a
non-abort failure stores a non-empty human-readable message in
`lastError`, sets `loading` to `false`, and leaves the previously
displayed `results` and `totalCount` untouched. -/
theorem remote_failure_surfaces_error (m : Machine) (g : Nat) (msg : String)
    (inv : InvState) (hg : m.invs[g]? = some inv) (hp : inv.pending = true)
    (ha : inv.aborted = false) :
    (stepEv m (.settle g (.err msg))).error = some (errMessage msg)
  ∧ errMessage msg ≠ ""
  ∧ (stepEv m (.settle g (.err msg))).loading = false
  ∧ (stepEv m (.settle g (.err msg))).results = m.results
  ∧ (stepEv m (.settle g (.err msg))).numFound = m.numFound := by
  have hmsg : errMessage msg ≠ "" := by
    unfold errMessage
    by_cases h : msg = ""
    · rw [if_pos h]; decide
    · rw [if_neg h]; exact h
  refine ⟨?_, hmsg, ?_, ?_, ?_⟩ <;> simp [stepEv, hg, hp, ha]

/-- **C5, witness.** A single live invocation settling with message
`"boom"` on a concrete trace. -/
theorem remote_failure_surfaces_error_witness :
    (runTrace [] [Ev.run "alpha" 1 .relevance]).invs[0]? =
      some { term := "alpha", page := 1, sortBy := .relevance
             aborted := false, pending := true }
  ∧ ((stepEv (runTrace [] [Ev.run "alpha" 1 .relevance])
        (.settle 0 (.err "boom"))).error = some (errMessage "boom")
    ∧ errMessage "boom" ≠ ""
    ∧ (stepEv (runTrace [] [Ev.run "alpha" 1 .relevance])
        (.settle 0 (.err "boom"))).loading = false
    ∧ (stepEv (runTrace [] [Ev.run "alpha" 1 .relevance])
        (.settle 0 (.err "boom"))).results =
          (runTrace [] [Ev.run "alpha" 1 .relevance]).results
    ∧ (stepEv (runTrace [] [Ev.run "alpha" 1 .relevance])
        (.settle 0 (.err "boom"))).numFound =
          (runTrace [] [Ev.run "alpha" 1 .relevance]).numFound) :=
  ⟨by decide,
   remote_failure_surfaces_error (runTrace [] [Ev.run "alpha" 1 .relevance])
     0 "boom"
     { term := "alpha", page := 1, sortBy := .relevance
       aborted := false, pending := true }
     (by decide) rfl rfl⟩

/-- **C2, counterexample.** A cancelled invocation's completion does
touch state: on the concrete trace `demoTrace` the superseded
invocation 0 is aborted while invocation 1 — the most recent — is
still in flight, yet settling invocation 0 flips `loading` from `true`
to `false` (the `finally` clause runs for stale invocations too). -/
theorem cancelled_settle_flips_loading :
    (runTrace [] demoTrace).loading = true
  ∧ (runTrace [] demoTrace).invs[0]?.map InvState.aborted = some true
  ∧ (runTrace [] demoTrace).invs[0]?.map InvState.pending = some true
  ∧ (runTrace [] demoTrace).invs[1]?.map InvState.pending = some true
  ∧ (stepEv (runTrace [] demoTrace)
      (.settle 0 (.ok (some 1) (some [])))).loading = false := by
  decide

/-- **C2, amended.** A cancelled (superseded) invocation's completion
leaves `results`, `totalCount`, `lastError` and the recent-search list
(in memory and persisted) untouched — but its `finally` clause always
sets `loading` to `false`, whether or not it is the most recent
invocation. -/
theorem cancelled_settle_silent_except_loading (m : Machine) (g : Nat)
    (out : FetchOutcome) (inv : InvState) (hg : m.invs[g]? = some inv)
    (hp : inv.pending = true) (ha : inv.aborted = true) :
    (stepEv m (.settle g out)).results = m.results
  ∧ (stepEv m (.settle g out)).numFound = m.numFound
  ∧ (stepEv m (.settle g out)).error = m.error
  ∧ (stepEv m (.settle g out)).recent = m.recent
  ∧ (stepEv m (.settle g out)).storedRecent = m.storedRecent
  ∧ (stepEv m (.settle g out)).loading = false := by
  refine ⟨?_, ?_, ?_, ?_, ?_, ?_⟩ <;> simp [stepEv, hg, hp, ha]

/-- **C2, witness (amended).** The aborted invocation 0 of `demoTrace`
settling after being superseded. -/
theorem cancelled_settle_silent_except_loading_witness :
    (runTrace [] demoTrace).invs[0]? =
      some { term := "alpha", page := 1, sortBy := .relevance
             aborted := true, pending := true }
  ∧ ((stepEv (runTrace [] demoTrace) (.settle 0 (.err "late"))).results =
      (runTrace [] demoTrace).results
    ∧ (stepEv (runTrace [] demoTrace) (.settle 0 (.err "late"))).numFound =
      (runTrace [] demoTrace).numFound
    ∧ (stepEv (runTrace [] demoTrace) (.settle 0 (.err "late"))).error =
      (runTrace [] demoTrace).error
    ∧ (stepEv (runTrace [] demoTrace) (.settle 0 (.err "late"))).recent =
      (runTrace [] demoTrace).recent
    ∧ (stepEv (runTrace [] demoTrace) (.settle 0 (.err "late"))).storedRecent =
      (runTrace [] demoTrace).storedRecent
    ∧ (stepEv (runTrace [] demoTrace) (.settle 0 (.err "late"))).loading =
      false) :=
  ⟨by decide,
   cancelled_settle_silent_except_loading (runTrace [] demoTrace) 0
     (.err "late")
     { term := "alpha", page := 1, sortBy := .relevance
       aborted := true, pending := true }
     (by decide) rfl rfl⟩

/-- `abortLast` preserves length. -/
theorem abortLast_length (l : List InvState) : (abortLast l).length = l.length := by
  induction l with
  | nil => rfl
  | cons a rest ih =>
    cases rest with
    | nil => rfl
    | cons b rest2 =>
      simp only [abortLast, List.length_cons] at ih ⊢
      omega

/-- `abortLast` only modifies the last entry. -/
theorem abortLast_getElem_lt (l : List InvState) (i : Nat) (h : i + 1 < l.length) :
    (abortLast l)[i]? = l[i]? := by
  induction l generalizing i with
  | nil => simp at h
  | cons a rest ih =>
    cases rest with
    | nil => simp at h
    | cons b rest2 =>
      cases i with
      | zero => simp [abortLast]
      | succ i2 =>
        simp only [abortLast, List.getElem?_cons_succ]
        exact ih i2 (by simp only [List.length_cons] at h ⊢; omega)

/-- The last entry of `abortLast l` has its controller aborted. -/
theorem abortLast_last_aborted (l : List InvState) :
    ∀ i : Nat, i + 1 = l.length →
      ∀ inv : InvState, (abortLast l)[i]? = some inv → inv.aborted = true := by
  induction l with
  | nil => intro i h; simp at h
  | cons a rest ih =>
    cases rest with
    | nil =>
      intro i h inv hg
      have hi : i = 0 := by simp only [List.length_cons, List.length_nil] at h; omega
      subst hi
      simp only [abortLast, List.getElem?_cons_zero, Option.some.injEq] at hg
      rw [← hg]
    | cons b rest2 =>
      intro i h inv hg
      cases i with
      | zero => simp only [List.length_cons] at h; omega
      | succ i2 =>
        simp only [abortLast, List.getElem?_cons_succ] at hg
        exact ih i2 (by simp only [List.length_cons] at h ⊢; omega) inv hg

/-- Every step of the fetch machine preserves the invariant that all
invocations except the most recent one are aborted: a `run` aborts the
previous last invocation before issuing a new one, and a `settle` only
clears a pending flag. -/
theorem stepEv_earlierAborted (m : Machine) (e : Ev) (h : earlierAborted m) :
    earlierAborted (stepEv m e) := by
  cases e with
  | run t p s =>
    by_cases ht : t = ""
    · intro i hi inv hg
      simp only [stepEv, if_pos ht] at hi hg
      rw [abortLast_length] at hi
      rw [abortLast_getElem_lt _ _ hi] at hg
      exact h i hi inv hg
    · intro i hi inv hg
      simp only [stepEv, if_neg ht] at hi hg
      rw [List.length_append, abortLast_length] at hi
      have hi2 : i < m.invs.length := by
        simp only [List.length_cons, List.length_nil] at hi; omega
      rw [List.getElem?_append_left (by rw [abortLast_length]; exact hi2)] at hg
      by_cases hlast : i + 1 = m.invs.length
      · exact abortLast_last_aborted m.invs i hlast inv hg
      · have hlt : i + 1 < m.invs.length := by omega
        rw [abortLast_getElem_lt _ _ hlt] at hg
        exact h i hlt inv hg
  | settle g out =>
    intro i hi inv hg
    cases hgv : m.invs[g]? with
    | none =>
      simp only [stepEv, hgv] at hi hg
      exact h i hi inv hg
    | some invg =>
      by_cases hp : invg.pending = true
      · have hinvs : (stepEv m (.settle g out)).invs =
            m.invs.set g { invg with pending := false } := by
          by_cases ha : invg.aborted = true
          · simp [stepEv, hgv, hp, ha]
          · cases out <;> simp [stepEv, hgv, hp, ha]
        rw [hinvs] at hi hg
        rw [List.length_set] at hi
        by_cases hig : i = g
        · subst hig
          have hilt : i < m.invs.length := by omega
          rw [List.getElem?_set_self hilt] at hg
          have hini : { invg with pending := false } = inv := Option.some.inj hg
          have habort := h i hi invg hgv
          rw [← hini]
          exact habort
        · rw [List.getElem?_set_ne (fun hh => hig hh.symm)] at hg
          exact h i hi inv hg
      · have hp2 : invg.pending = false := by
          cases hb : invg.pending with
          | false => rfl
          | true => exact absurd hb hp
        simp only [stepEv, hgv, hp2] at hi hg
        exact h i hi inv hg

/-- **C1.** Latest wins: along every trace of parameter changes and
settlements, (i) every invocation other than the most recently issued
one has been cancelled (so issuing a new invocation cancels all
earlier in-flight ones), and (ii) the settlement of any invocation
that is not the most recent — with any outcome, resolving at any later
time — leaves `results`, `totalCount` and `lastError` exactly as the
later invocation's processing left them. -/
theorem latest_invocation_wins (r0 : List String) (es : List Ev) (g : Nat)
    (out : FetchOutcome) :
    (∀ i, i + 1 < (runTrace r0 es).invs.length →
      ∀ inv, (runTrace r0 es).invs[i]? = some inv → inv.aborted = true)
  ∧ (g + 1 < (runTrace r0 es).invs.length →
      (stepEv (runTrace r0 es) (.settle g out)).results =
        (runTrace r0 es).results
    ∧ (stepEv (runTrace r0 es) (.settle g out)).numFound =
        (runTrace r0 es).numFound
    ∧ (stepEv (runTrace r0 es) (.settle g out)).error =
        (runTrace r0 es).error) := by
  have hinv : earlierAborted (runTrace r0 es) := by
    have hgen : ∀ (es2 : List Ev) (m : Machine), earlierAborted m →
        earlierAborted (es2.foldl stepEv m) := by
      intro es2
      induction es2 with
      | nil => intro m h; exact h
      | cons e rest ih => intro m h; exact ih _ (stepEv_earlierAborted m e h)
    refine hgen es (Machine.init r0) ?_
    intro i hi inv hg
    simp [Machine.init] at hi
  refine ⟨hinv, fun hg => ?_⟩
  generalize hM : runTrace r0 es = m at hinv hg ⊢
  have hlt : g < m.invs.length := by omega
  obtain ⟨inv, hgv⟩ : ∃ inv, m.invs[g]? = some inv :=
    ⟨_, List.getElem?_eq_getElem hlt⟩
  have hab : inv.aborted = true := hinv g hg inv hgv
  by_cases hp : inv.pending = true
  · refine ⟨?_, ?_, ?_⟩ <;> simp [stepEv, hgv, hp, hab]
  · have hp2 : inv.pending = false := by
      cases hb : inv.pending with
      | false => rfl
      | true => exact absurd hb hp
    refine ⟨?_, ?_, ?_⟩ <;> simp [stepEv, hgv, hp2]

/-- **C1, witness.** On the concrete trace `demoTrace`, the superseded
invocation 0 settles successfully after invocation 1 was issued and
does not overwrite `results`, `totalCount` or `lastError`. -/
theorem latest_invocation_wins_witness :
    0 + 1 < (runTrace [] demoTrace).invs.length
  ∧ ((stepEv (runTrace [] demoTrace)
        (.settle 0 (.ok (some 7) (some [demoBookA])))).results =
      (runTrace [] demoTrace).results
    ∧ (stepEv (runTrace [] demoTrace)
        (.settle 0 (.ok (some 7) (some [demoBookA])))).numFound =
      (runTrace [] demoTrace).numFound
    ∧ (stepEv (runTrace [] demoTrace)
        (.settle 0 (.ok (some 7) (some [demoBookA])))).error =
      (runTrace [] demoTrace).error) :=
  ⟨by decide,
   (latest_invocation_wins [] demoTrace 0
     (.ok (some 7) (some [demoBookA]))).2 (by decide)⟩

/-- One intermediate change followed by less than a full debounce
window of quiet time never fires a commit: the rescheduled timeout's
deadline lies beyond the elapsed time. -/
theorem pair_preserves (st : DSt) (s : String) (d : Nat)
    (hs : jsTrim s ≠ "") (hd : d < DEBOUNCE_MS) :
    (dstep (dstep st (.input s)) (.elapse d)).searchTerm = st.searchTerm
  ∧ (dstep (dstep st (.input s)) (.elapse d)).searchTrigger = st.searchTrigger
  ∧ (dstep (dstep st (.input s)) (.elapse d)).page = st.page := by
  have hnofire : ¬ (st.now + DEBOUNCE_MS ≤ st.now + d) := by omega
  refine ⟨?_, ?_, ?_⟩ <;> simp [dstep, hs, hnofire]

/-- A whole burst of nonempty changes, each separated by less than the
debounce window, commits nothing: `searchTerm`, `searchTrigger` and
`page` are untouched. -/
theorem typing_preserves (ps : List (String × Nat)) :
    ∀ st : DSt, (∀ p ∈ ps, jsTrim p.1 ≠ "" ∧ p.2 < DEBOUNCE_MS) →
      (dsteps st (typeEvents ps)).searchTerm = st.searchTerm
    ∧ (dsteps st (typeEvents ps)).searchTrigger = st.searchTrigger
    ∧ (dsteps st (typeEvents ps)).page = st.page := by
  induction ps with
  | nil => intro st _; exact ⟨rfl, rfl, rfl⟩
  | cons p rest ih =>
    intro st h
    have hp := h p (List.mem_cons_self p rest)
    have hstep := pair_preserves st p.1 p.2 hp.1 hp.2
    have hrest := ih (dstep (dstep st (.input p.1)) (.elapse p.2))
      (fun q hq => h q (List.mem_cons_of_mem p hq))
    have hE : dsteps st (typeEvents (p :: rest)) =
        dsteps (dstep (dstep st (.input p.1)) (.elapse p.2))
          (typeEvents rest) := rfl
    rw [hE]
    exact ⟨hrest.1.trans hstep.1, hrest.2.1.trans hstep.2.1,
      hrest.2.2.trans hstep.2.2⟩

/-- **C4.** For a burst of raw-query changes with nonempty trimmed
values, each arriving within the 450 ms quiescence window of its
predecessor: no intermediate value is ever committed (the committed
term and the trigger counter — the fetch effect's dependencies — stay
unchanged through the whole burst, so no remote call is issued), and
once the window elapses after the final change, exactly one commit
happens: `page` becomes 1, `committedTerm` becomes the trimmed final
value, and the trigger counter is bumped exactly once. -/
theorem debounce_commits_only_last (st0 : DSt) (ps : List (String × Nat))
    (sf : String) (D : Nat)
    (hps : ∀ p ∈ ps, jsTrim p.1 ≠ "" ∧ p.2 < DEBOUNCE_MS)
    (hsf : jsTrim sf ≠ "") (hD : DEBOUNCE_MS ≤ D) :
    ((dsteps st0 (typeEvents ps)).searchTerm = st0.searchTerm
    ∧ (dsteps st0 (typeEvents ps)).searchTrigger = st0.searchTrigger)
  ∧ ((dsteps st0 (typeEvents ps ++ [DEv.input sf])).searchTerm =
        st0.searchTerm
    ∧ (dsteps st0 (typeEvents ps ++ [DEv.input sf])).searchTrigger =
        st0.searchTrigger)
  ∧ ((dsteps st0 (typeEvents ps ++ [DEv.input sf, DEv.elapse D])).searchTerm =
        jsTrim sf
    ∧ (dsteps st0 (typeEvents ps ++ [DEv.input sf, DEv.elapse D])).page = 1
    ∧ (dsteps st0 (typeEvents ps ++ [DEv.input sf, DEv.elapse D])).searchTrigger
        = st0.searchTrigger + 1) := by
  have h1 := typing_preserves ps st0 hps
  have happ1 : dsteps st0 (typeEvents ps ++ [DEv.input sf]) =
      dstep (dsteps st0 (typeEvents ps)) (.input sf) := by
    simp only [dsteps, List.foldl_append, List.foldl_cons, List.foldl_nil]
  have happ2 : dsteps st0 (typeEvents ps ++ [DEv.input sf, DEv.elapse D]) =
      dstep (dstep (dsteps st0 (typeEvents ps)) (.input sf)) (.elapse D) := by
    simp only [dsteps, List.foldl_append, List.foldl_cons, List.foldl_nil]
  have hin : dstep (dsteps st0 (typeEvents ps)) (.input sf) =
      { dsteps st0 (typeEvents ps) with
          query := sf
          timer := some ((dsteps st0 (typeEvents ps)).now + DEBOUNCE_MS,
            jsTrim sf) } := by
    simp [dstep, hsf]
  have hfire : (dsteps st0 (typeEvents ps)).now + DEBOUNCE_MS ≤
      (dsteps st0 (typeEvents ps)).now + D := by omega
  refine ⟨⟨h1.1, h1.2.1⟩, ?_, ?_⟩
  · rw [happ1, hin]
    exact ⟨h1.1, h1.2.1⟩
  · rw [happ2, hin]
    refine ⟨?_, ?_, ?_⟩ <;> simp [dstep, hfire, h1.2.1]

/-- **C4, witness.** A concrete burst: "har" then " harry potter "
typed 100 ms apart over a state with a prior committed search; after
450 ms of quiet only "harry potter" is committed, with `page = 1` and
one trigger bump. -/
theorem debounce_commits_only_last_witness :
    (∀ p ∈ [("har", 100)], jsTrim p.1 ≠ "" ∧ p.2 < DEBOUNCE_MS)
  ∧ jsTrim " harry potter " ≠ ""
  ∧ DEBOUNCE_MS ≤ 450
  ∧ (((dsteps demoDSt (typeEvents [("har", 100)])).searchTerm =
        demoDSt.searchTerm
      ∧ (dsteps demoDSt (typeEvents [("har", 100)])).searchTrigger =
        demoDSt.searchTrigger)
    ∧ ((dsteps demoDSt (typeEvents [("har", 100)] ++
          [DEv.input " harry potter "])).searchTerm = demoDSt.searchTerm
      ∧ (dsteps demoDSt (typeEvents [("har", 100)] ++
          [DEv.input " harry potter "])).searchTrigger =
            demoDSt.searchTrigger)
    ∧ ((dsteps demoDSt (typeEvents [("har", 100)] ++
          [DEv.input " harry potter ", DEv.elapse 450])).searchTerm =
            jsTrim " harry potter "
      ∧ (dsteps demoDSt (typeEvents [("har", 100)] ++
          [DEv.input " harry potter ", DEv.elapse 450])).page = 1
      ∧ (dsteps demoDSt (typeEvents [("har", 100)] ++
          [DEv.input " harry potter ", DEv.elapse 450])).searchTrigger =
            demoDSt.searchTrigger + 1)) :=
  ⟨by decide, by decide, by decide,
   debounce_commits_only_last demoDSt [("har", 100)] " harry potter " 450
     (by decide) (by decide) (by decide)⟩

end BookFinder
